import Mathlib

/-!
Shallow embedding of the distributed adaptive RK-Merson solver
`RK_MPI_SAsolver_hybrid.c` (module RK_MPI_SAsolver_hybrid of the
PorousFreezeThaw repository) together with the chunk-layout validator
`RK_MPI_SA_check_mem`.

Modelling conventions:
* the C type `FLOAT` is modelled by `ℚ` (ideal arithmetic; the decimal
  constants of the source, 0.2 and so on, are taken at their mathematical
  value);
* C `int` / `long` values are modelled by `ℤ`;
* arrays are total functions `ℕ → ℚ` (a C pointer gives access to memory
  before/after the live region; reads outside the region return whatever
  is stored there);
* MPI collectives are modelled from the viewpoint of the master rank:
  the contribution of the other ranks to an all-reduce is an oracle input
  (`ExtIn`), one per loop iteration; with a single rank the natural oracle
  values are `epsOthers = 0` and `nanAny = false`;
* the `isfinite` test of the NaN-handling block can never fail on exact
  rationals, so the fact "some rank observed a non-finite error estimate"
  is the oracle bit `ExtIn.nanAny` (reduced with `MPI_BOR` in the source);
* OpenMP: the hybrid variant's inner loops are data-parallel but every
  value they produce is identical to the sequential execution (the manual
  `max` reduction computes the same maximum), so the embedding is the
  sequential semantics;
* the `DDLBF_Rearrange` hook is modelled as absent (NULL), as in every
  in-repo driver relevant to the claims;
* the right hand side is a mathematical function `RHS`; its write into a
  destination buffer respects the chunk discipline stipulated for it
  (`callRHS` only overwrites chunk indices, the contract of the solver).
-/

namespace PorousRK

abbrev FLOAT := ℚ

/-- A state / coefficient array: total function from indices to values. -/
abbrev Vec := ℕ → FLOAT

/-- The mathematical right hand side `f(t, x)` as a full output array. -/
abbrev RHS := FLOAT → Vec → Vec

/-- delta_mode values (DELTA_GLOBAL / DELTA_LOCAL of RK_MPI_SAsolver.h). -/
inductive DeltaMode where
  | GLOBAL : DeltaMode
  | LOCAL : DeltaMode
deriving DecidableEq, Repr

/-! ## Chunk layout: RK_MEM_DIST and RK_MPI_SA_check_mem -/

/-- The sparse system distribution `RK_MEM_DIST`: `n_chunks` chunk
descriptors stored in three arrays.  The arrays are modelled as total
functions on `ℕ` (the C code may read any index; memory holds some value
there). -/
structure RK_MEM_DIST where
  n_chunks : ℤ
  chunk_start : ℕ → ℤ
  chunk_size : ℕ → ℤ
  chunk_eps_mult : ℕ → FLOAT

/-- The placement-scanning loop of `RK_MPI_SA_check_mem`: starting at
chunk index `i` with `cnt` chunks left and `offset` the first available
offset, either fail with the error code or return the final offset.
Mirrors lines 201-208 of RK_MPI_SAsolver_hybrid.c. -/
def chunkScan (cs sz : ℕ → ℤ) : ℕ → ℕ → ℤ → Except ℤ ℤ
  | _, 0, offset => .ok offset
  | i, cnt + 1, offset =>
    let st := cs i
    if st < offset then .error (-6)
    else
      let e := st + sz i
      if e ≤ st then .error (-6)
      else chunkScan cs sz (i + 1) cnt e

/-- `RK_MPI_SA_check_mem`.  The module state enters through `max_n`
(0 when not initialised) and `K1null` (whether the scratch pointer is
NULL); the source tests `max_n==0 || K1==NULL`. -/
def RK_MPI_SA_check_mem (max_n : ℤ) (K1null : Bool) (n : RK_MEM_DIST) : ℤ :=
  if max_n = 0 ∨ K1null then -3
  else if n.n_chunks ≤ 0 then -7
  else
    match chunkScan n.chunk_start n.chunk_size 0 n.n_chunks.toNat 0 with
    | .error c => c
    | .ok offset => if offset > max_n then -5 else 0

/-- End offset that the scan holds when it arrives at chunk `i`
(0 before the first chunk, end of chunk `i-1` afterwards). -/
def chunkEnd (n : RK_MEM_DIST) : ℕ → ℤ
  | 0 => 0
  | i + 1 => n.chunk_start i + n.chunk_size i

/-- Chunk `i` violates the placement rules: it starts before the end of
its predecessor, or it has non-positive size. -/
def violAt (n : RK_MEM_DIST) (i : ℕ) : Prop :=
  n.chunk_start i < chunkEnd n i ∨ n.chunk_size i ≤ 0

instance (n : RK_MEM_DIST) (i : ℕ) : Decidable (violAt n i) := by
  unfold violAt; infer_instance

/-! ## Solver core: chunks as seen by the step kernels

For the stepping kernels the chunk placement is the list of
`(chunk_start, chunk_size, chunk_eps_mult)` triples actually visited by
the `for(k...)` loops; starts and sizes are natural numbers there (a
negative value would make the C kernels index before the buffer, which
is undefined behaviour and outside every claim). -/

structure Chunk where
  start : ℕ
  size : ℕ
  eps_mult : FLOAT
deriving Repr

/-- Index `i` lies inside chunk `c`. -/
def inChunk (c : Chunk) (i : ℕ) : Bool :=
  decide (c.start ≤ i) && decide (i < c.start + c.size)

/-- Index `i` lies inside some chunk of the layout. -/
def inChunks (lay : List Chunk) (i : ℕ) : Bool :=
  lay.any (fun c => inChunk c i)

/-- Chunk-wise overwrite: the common shape of the four staging loops,
`for(k over chunks) for(i over the chunk) q[i] = g(chunk_start+i)`.
Because the written value depends only on the global index and on arrays
distinct from the destination, writing a position twice (overlapping
chunks) stores the same value, so the if-form is exact for any layout. -/
def writeChunks (lay : List Chunk) (g : ℕ → FLOAT) (dest : Vec) : Vec :=
  fun i => if inChunks lay i then g i else dest i

/-- Effect of a right-hand-side call `f(t, arg, dest)`: the contract of
the solver lets `f` write only inside the chunks; outside them `dest`
keeps its previous content. -/
def callRHS (lay : List Chunk) (F : RHS) (t : FLOAT) (arg : Vec) (dest : Vec) : Vec :=
  writeChunks lay (F t arg) dest

/-- The five scratch arrays of the module (K2 has no storage of its own:
the source sets `FLOAT * K2=K3`). -/
structure Bufs where
  K1 : Vec
  K3 : Vec
  K4 : Vec
  K5 : Vec
  aux : Vec

/-- One Merson construction: the five right-hand-side calls with the
four staging loops in between (lines 370-453 of the source).  Returns
the final scratch state together with the trace of `f` invocations
`(time, argument array)` in call order.  `K2` is produced into the `K3`
buffer and consumed from it by the K3 staging loop. -/
def runStages (lay : List Chunk) (F : RHS) (t h : FLOAT) (x : Vec) (b : Bufs) :
    Bufs × List (FLOAT × Vec) :=
  let h2 := h / 2
  let h3 := h / 3
  let h6 := h / 6
  let h8 := h / 8
  let K1v := callRHS lay F t x b.K1
  let a1 := writeChunks lay (fun i => K1v i * h3 + x i) b.aux
  let K2v := callRHS lay F (t + h3) a1 b.K3
  let a2 := writeChunks lay (fun i => (K1v i + K2v i) * h6 + x i) a1
  let K3v := callRHS lay F (t + h3) a2 K2v
  let a3 := writeChunks lay (fun i => (K1v i + 3 * K3v i) * h8 + x i) a2
  let K4v := callRHS lay F (t + h2) a3 b.K4
  let a4 := writeChunks lay (fun i => (1/2 * K1v i - 3/2 * K3v i + 2 * K4v i) * h + x i) a3
  let K5v := callRHS lay F (t + h) a4 b.K5
  (⟨K1v, K3v, K4v, K5v, a4⟩,
   [(t, x), (t + h3, a1), (t + h3, a2), (t + h2, a3), (t + h, a4)])

/-- The Merson error combination `0.2*K1 - 0.9*K3 + 0.8*K4 - 0.1*K5`
at index `i` (line 529 of the source). -/
def mersonErr (b : Bufs) (i : ℕ) : FLOAT :=
  1/5 * b.K1 i - 9/10 * b.K3 i + 4/5 * b.K4 i - 1/10 * b.K5 i

/-- The per-index weighted error magnitudes, flattened in loop order:
`chunk_eps_mult[k] * fabs(mersonErr i)` for every index of every chunk. -/
def chunkErrs (lay : List Chunk) (b : Bufs) : List FLOAT :=
  lay.flatMap (fun c =>
    (List.range c.size).map (fun j => c.eps_mult * |mersonErr b (c.start + j)|))

/-- The rank-local reduced error: running maximum started at `eps=0.0`
(lines 461 and 506-536 of the source). -/
def epsLocal (lay : List Chunk) (b : Bufs) : FLOAT :=
  (chunkErrs lay b).foldl max 0

/-- `max_eps *= fabsF(h3)` under DELTA_LOCAL; unchanged under
DELTA_GLOBAL (line 565). -/
def deltaNormalize (mode : DeltaMode) (h3 eps : FLOAT) : FLOAT :=
  match mode with
  | .LOCAL => eps * |h3|
  | .GLOBAL => eps

/-- `new_h = ((max_eps>0.0) ? powF((delta/max_eps),0.2)*0.8 : 2.0) * h`
(line 567).  `powF` is the platform power function, abstracted as a
parameter of the model. -/
def new_h_of (powF : FLOAT → FLOAT → FLOAT) (delta max_eps h : FLOAT) : FLOAT :=
  (if 0 < max_eps then powF (delta / max_eps) (1/5) * (4/5) else 2) * h

/-- The command word broadcast from the master (the RKA_CMD_* bits). -/
structure Cmd where
  h_TOO_SMALL : Bool
  NAN : Bool
  UPDATE : Bool
  FINISHED : Bool
  NEXTFINISH : Bool
  BREAK : Bool
deriving DecidableEq, Repr

/-! ## The solution handle and the pre-flight error negotiation -/

/-- The data of `RK_MPI_S_SOLUTION` visible to the service callback
(the callback receives a const pointer to the structure). -/
structure SessCore where
  n : Option (List Chunk)
  t : FLOAT
  h : FLOAT
  h_min : FLOAT
  delta : FLOAT
  delta_mode : DeltaMode
  x : Vec
  steps : ℤ
  steps_total : ℤ

/-- The solution handle `RK_MPI_S_SOLUTION`.  `n = none` models a NULL
chunk-layout pointer; `xNull` / `metaNull` model NULL `x` / `meta_f`
pointers (when `xNull` is false the buffer content is the `x` field).
The `DDLBF_Rearrange` hook is NULL throughout (out of scope).  Only the
master's return value of the service callback is consulted, so the
callback is modelled by its master-rank instance. -/
structure Session where
  n : Option (List Chunk)
  t : FLOAT
  h : FLOAT
  h_min : FLOAT
  delta : FLOAT
  delta_mode : DeltaMode
  x : Vec
  xNull : Bool
  metaNull : Bool
  svc : Option (FLOAT → SessCore → ℤ)
  steps : ℤ
  steps_total : ℤ

/-- View of a session as the structure passed to the service callback. -/
def Session.core (s : Session) : SessCore :=
  ⟨s.n, s.t, s.h, s.h_min, s.delta, s.delta_mode, s.x, s.steps, s.steps_total⟩

/-- End offset of the last chunk, as read by the solver's own capacity
check `n->chunk_start[n_chunks-1]+n->chunk_size[n_chunks-1]` (for an
empty list the C code would read before the arrays; the claims only
concern non-empty layouts, the model returns 0 there). -/
def lastEnd (lay : List Chunk) : ℕ :=
  match lay.getLast? with
  | some c => c.start + c.size
  | none => 0

/-- The local error code a rank computes at entry to `RK_MPI_SA_solve`
(lines 276-286): later assignments overwrite earlier ones.  `inited`
stands for `max_n != 0 && K1 != NULL`; `isMaster` selects the
master-only `delta` test. -/
def preflightCode (max_n : ℕ) (inited : Bool) (isMaster : Bool) (sys : Session) : ℤ :=
  let e : ℤ := 0
  let e := match sys.n with
    | none => -5
    | some lay => if (lastEnd lay : ℤ) > (max_n : ℤ) then -5 else e
  let e := if ¬ inited then -3 else e
  let e := if sys.xNull || sys.metaNull then -2 else e
  let e := if isMaster ∧ sys.delta ≤ 0 then -2 else e
  e

/-! ## The integration loop -/

/-- Oracle input of one loop iteration: what the other ranks contribute
to the collectives of that attempt.  `epsOthers` is the maximum of the
rank-local errors of the other ranks entering `MPI_Allreduce(...,MPI_MAX)`
(0 when this rank runs alone); `nanAny` is true when the `MPI_BOR`
reduction of the per-rank NaN flags is set, i.e. some rank evaluated a
non-finite error estimate (never the modelled rank itself: exact
rational arithmetic is always finite). -/
structure ExtIn where
  epsOthers : FLOAT
  nanAny : Bool

/-- Loop-constant data: the values broadcast from the master before the
loop plus the module-level configuration. -/
structure LoopParams where
  final_time : FLOAT
  delta : FLOAT
  h_min : FLOAT
  delta_mode : DeltaMode
  handleNAN : Bool
  metaF : ℕ → RHS
  powF : FLOAT → FLOAT → FLOAT

/-- The mutable state of one rank inside the `while(1)` loop: the
session being updated, the local copies `t`, `h`, whether the
RKA_CMD_FINISHED bit is pending in the master's command word, the count
of `meta_f` invocations already made (selecting the right hand side),
the `last_NAN` module flag, a ghost counter of right-hand-side calls,
and the scratch buffers. -/
structure LState where
  sess : Session
  t : FLOAT
  h : FLOAT
  cmdFIN : Bool
  f_idx : ℕ
  last_NAN : Bool
  rhsCalls : ℕ
  bufs : Bufs

/-- Result of one loop iteration: continue with a new state, or leave
the loop returning a code (the final state carries the session exactly
as the function returns it, including the post-loop `system->t=t`). -/
inductive IterRes where
  | next : LState → IterRes
  | done : ℤ → LState → IterRes

/-- The state carried by an iteration result. -/
def IterRes.state : IterRes → LState
  | .next s => s
  | .done _ s => s

/-- The return code of an iteration result, if the loop exits. -/
def IterRes.retCode : IterRes → Option ℤ
  | .next _ => none
  | .done c _ => some c

/-- The Merson construction performed by this attempt. -/
def attemptOf (p : LoopParams) (s : LState) : Bufs × List (FLOAT × Vec) :=
  runStages (s.sess.n.getD []) (p.metaF s.f_idx) s.t s.h s.sess.x s.bufs

/-- The globally reduced and delta_mode-normalised error of this
attempt: `MPI_Allreduce(MAX)` of the rank-local errors, then the
DELTA_LOCAL scaling (lines 559-565). -/
def epsOf (p : LoopParams) (ext : ExtIn) (s : LState) : FLOAT :=
  deltaNormalize p.delta_mode (s.h / 3)
    (max (epsLocal (s.sess.n.getD []) (attemptOf p s).1) ext.epsOthers)

/-- The proposed next step of this attempt (line 567). -/
def new_hOf (p : LoopParams) (ext : ExtIn) (s : LState) : FLOAT :=
  new_h_of p.powF p.delta (epsOf p ext s) s.h

/-- The command word the master assembles and broadcasts for this
attempt (lines 496-503 and 585-598); `FINISHED` persists from the
initial trimming or from a NEXTFINISH of the previous iteration. -/
def stepCmd (p : LoopParams) (ext : ExtIn) (s : LState) : Cmd :=
  let nanG := p.handleNAN && ext.nanAny
  let me := epsOf p ext s
  let nh := new_hOf p ext s
  let acc := decide (me < p.delta) || decide (|s.h| < p.h_min)
  { h_TOO_SMALL := nanG && decide (s.h / (p.final_time - s.t) < 1/100000000000)
    NAN := nanG
    UPDATE := acc
    FINISHED := s.cmdFIN
    NEXTFINISH := acc && decide (|p.final_time - (s.t + s.h)| ≤ |nh|)
    BREAK := false }

/-- One chunk of the accepted-step update
`q[i] += h3*( 0.5 * ( u[i] + w[i] ) + 2.0 * v[i] )` with
`u=K1, v=K4, w=K5` (lines 643-655). -/
def updateChunk (c : Chunk) (h3 : FLOAT) (b : Bufs) (x : Vec) : Vec :=
  fun i => if inChunk c i then x i + h3 * (1/2 * (b.K1 i + b.K5 i) + 2 * b.K4 i) else x i

/-- The accepted-step update over all chunks, in loop order (an index
covered by several chunks would be incremented once per covering chunk,
exactly as the C loops do). -/
def updateX (lay : List Chunk) (h3 : FLOAT) (b : Bufs) (x : Vec) : Vec :=
  lay.foldl (fun xv c => updateChunk c h3 b xv) x

/-- Session content after the accepted-step bookkeeping of this
iteration: `steps_total++` (every attempt), the solution update, and
`steps++`. -/
def sessAfterUpdate (p : LoopParams) (s : LState) : Session :=
  { s.sess with
    steps_total := s.sess.steps_total + 1
    x := updateX (s.sess.n.getD []) (s.h / 3) (attemptOf p s).1 s.sess.x
    steps := s.sess.steps + 1 }

/-- Session as seen by the service callback: before invoking it the
source stores the freshly accepted `t` and the step `h` used into the
session (lines 663-666). -/
def svcSess (p : LoopParams) (s : LState) : Session :=
  { sessAfterUpdate p s with t := s.t + s.h, h := s.h }

/-- Session after the service-callback stage of an accepted step (the
callback, when present, has the current `t` and `h` stored first). -/
def sessAfterSvc (p : LoopParams) (s : LState) : Session :=
  match s.sess.svc with
  | none => sessAfterUpdate p s
  | some _ => svcSess p s

/-- Whether the master's service callback asks for a break
(`Service_Callback(final_time, system)` returned nonzero on the master,
line 671); false when no callback is installed. -/
def brkOf (p : LoopParams) (s : LState) : Bool :=
  match s.sess.svc with
  | none => false
  | some sc => sc p.final_time (svcSess p s).core != 0

/-- One iteration of the `while(1)` loop (lines 352-753), seen from the
master rank, `ext` supplying the peer contributions to the collectives
of this attempt. -/
def iter (p : LoopParams) (ext : ExtIn) (s : LState) : IterRes :=
  let ab := attemptOf p s
  let cmd := stepCmd p ext s
  let nh := new_hOf p ext s
  let sess1 := { s.sess with steps_total := s.sess.steps_total + 1 }
  let s1 : LState :=
    { s with sess := sess1, bufs := ab.1, rhsCalls := s.rhsCalls + ab.2.length }
  if cmd.NAN then
    if cmd.h_TOO_SMALL then
      .done (-4) { s1 with sess := { sess1 with t := s.t }, last_NAN := true }
    else
      .next { s1 with h := s.h / 10, cmdFIN := false, last_NAN := true }
  else if cmd.UPDATE then
    let t' := s.t + s.h
    let sess3 := sessAfterSvc p s
    if cmd.FINISHED then
      .done 0 { s1 with sess := { sess3 with t := t' }, t := t' }
    else if brkOf p s then
      .done 1 { s1 with sess := { sess3 with t := t', h := nh }, t := t' }
    else if cmd.NEXTFINISH then
      .next { s1 with
              sess := { sess3 with h := nh }
              t := t'
              h := p.final_time - t'
              cmdFIN := true
              f_idx := s.f_idx + 1 }
    else
      .next { s1 with
              sess := sess3
              t := t'
              h := nh
              cmdFIN := false
              f_idx := s.f_idx + 1 }
  else
    .next { s1 with h := nh, cmdFIN := false }

/-- The integration loop: `k` numbers the attempts (indexing the oracle
stream), `fuel` bounds the number of iterations of the model (the C
loop runs unboundedly; a claim about a returning call quantifies over
the fuel that made it return). -/
def solveLoop (p : LoopParams) (exts : ℕ → ExtIn) :
    ℕ → ℕ → LState → Option (ℤ × LState)
  | _, 0, _ => none
  | k, fuel + 1, s =>
    match iter p (exts k) s with
    | .next s' => solveLoop p exts (k + 1) fuel s'
    | .done c s' => some (c, s')

/-- Module-level state and configuration entering a solve call:
capacity and init latch from `RK_MPI_SA_init`, the NaN-handling gate,
the platform power function, the meta right-hand-side selector (the
function `meta_f` returns on its k-th invocation), and the scratch
buffer contents left over from before the call. -/
structure SolveEnv where
  max_n : ℕ
  inited : Bool
  handleNAN : Bool
  powF : FLOAT → FLOAT → FLOAT
  metaF : ℕ → RHS
  bufs0 : Bufs

/-- The loop state at entry, before the master's initial adjustment. -/
def initLState (env : SolveEnv) (sys : Session) : LState :=
  { sess := sys, t := sys.t, h := sys.h, cmdFIN := false, f_idx := 0,
    last_NAN := false, rhsCalls := 0, bufs := env.bufs0 }

/-- The loop-constant data assembled at entry (the master's own values,
broadcast to the other ranks). -/
def loopParamsOf (env : SolveEnv) (final_time : FLOAT) (sys : Session) : LoopParams :=
  { final_time := final_time, delta := sys.delta, h_min := sys.h_min,
    delta_mode := sys.delta_mode, handleNAN := env.handleNAN,
    metaF := env.metaF, powF := env.powF }

/-- `RK_MPI_SA_solve`, from the master rank's viewpoint (with a single
rank the oracles are trivial).  `extErrMin` is the minimum of the other
ranks' pre-flight error codes entering `MPI_Allreduce(MIN)` (0 when
running alone).  Mirrors lines 215-757: pre-flight error negotiation,
sign alignment and initial trimming of `h`, then the loop. -/
def RK_MPI_SA_solve (env : SolveEnv) (extErrMin : ℤ) (exts : ℕ → ExtIn)
    (fuel : ℕ) (final_time : FLOAT) (sys : Session) : Option (ℤ × LState) :=
  let e := preflightCode env.max_n env.inited true sys
  let s0 := initLState env sys
  if e ≠ 0 then some (e, s0)
  else if min e extErrMin < 0 then some (-6, s0)
  else
    let t := sys.t
    let h0 := sys.h
    let h1 := if (final_time > t ∧ h0 < 0) ∨ (final_time < t ∧ h0 > 0) then -h0 else h0
    let trimB := decide (h1 = 0 ∨ |final_time - t| ≤ |h1|)
    let h2 := if trimB then final_time - t else h1
    solveLoop (loopParamsOf env final_time sys) exts 0 fuel
      { s0 with h := h2, cmdFIN := trimB }

/-! ## Auxiliary notions and concrete fixtures -/

/-- Two chunks occupy disjoint index ranges. -/
def ChunkDisjB (c d : Chunk) : Bool :=
  decide (c.start + c.size ≤ d.start) || decide (d.start + d.size ≤ c.start)

/-- Pairwise disjointness of a chunk layout (satisfied by every layout
accepted by `RK_MPI_SA_check_mem`). -/
def LayDisj (lay : List Chunk) : Prop :=
  lay.Pairwise (fun c d => ChunkDisjB c d = true)

/-- Default element used to read the call trace by position. -/
def defCall : FLOAT × Vec := (0, fun _ => 0)

/-- Fixture: the zero right hand side. -/
def F0 : RHS := fun _ _ => fun _ => 0

/-- Fixture: one chunk of size 1 at offset 0 (index 1 is a gap). -/
def lay1 : List Chunk := [⟨0, 1, 1⟩]

/-- Fixture: scratch buffers with the stale value 42 in `aux`. -/
def bufsW : Bufs := ⟨fun _ => 0, fun _ => 0, fun _ => 0, fun _ => 0, fun _ => 42⟩

/-- Fixture: an initialised module with capacity 2 and the zero rhs. -/
def env1 : SolveEnv :=
  { max_n := 2, inited := true, handleNAN := false, powF := fun _ _ => 1,
    metaF := fun _ => F0, bufs0 := bufsW }

/-- Fixture: a valid session at `t = 0` with `x = 1` everywhere. -/
def sys1 : Session :=
  { n := some lay1, t := 0, h := 0, h_min := 0, delta := 1, delta_mode := .GLOBAL,
    x := fun _ => 1, xNull := false, metaNull := false, svc := none,
    steps := 0, steps_total := 0 }

/-- Fixture: the session with a NULL chunk-layout pointer. -/
def sysN : Session := { sys1 with n := none }

/-- Fixture: trivial peer oracle (single-rank run). -/
def ext0 : ℕ → ExtIn := fun _ => ⟨0, false⟩

/-- Fixture: loop parameters of a plain single-rank integration. -/
def pW : LoopParams :=
  { final_time := 1, delta := 1, h_min := 0, delta_mode := .GLOBAL,
    handleNAN := false, metaF := fun _ => F0, powF := fun _ _ => 1 }

/-- Fixture: a loop state at `t = 0`, `h = 1` with stale `aux = 42`. -/
def sW : LState :=
  { sess := { sys1 with h := 1 }, t := 0, h := 1, cmdFIN := false, f_idx := 0,
    last_NAN := false, rhsCalls := 0, bufs := bufsW }

/-- Fixture: an invalid-weight distribution: placement is valid but
every error multiplier is -1. -/
def dBad : RK_MEM_DIST := ⟨1, fun _ => 0, fun _ => 1, fun _ => -1⟩

/-- Fixture: loop parameters with NaN handling enabled. -/
def pN : LoopParams := { pW with handleNAN := true }

/-- Fixture: peer oracle reporting a NaN on some rank. -/
def extN : ExtIn := ⟨0, true⟩

/-! ## Helper lemmas -/

theorem inChunks_cons (c : Chunk) (l : List Chunk) (i : ℕ) :
    inChunks (c :: l) i = (inChunk c i || inChunks l i) := by
  simp [inChunks]

theorem writeChunks_gap (lay : List Chunk) (g : ℕ → FLOAT) (v : Vec) (i : ℕ)
    (hi : inChunks lay i = false) : writeChunks lay g v i = v i := by
  simp [writeChunks, hi]

theorem writeChunks_hit (lay : List Chunk) (g : ℕ → FLOAT) (v : Vec) (i : ℕ)
    (hi : inChunks lay i = true) : writeChunks lay g v i = g i := by
  simp [writeChunks, hi]

theorem updateChunk_gap (c : Chunk) (h3 : FLOAT) (b : Bufs) (x : Vec) (i : ℕ)
    (hi : inChunk c i = false) : updateChunk c h3 b x i = x i := by
  simp [updateChunk, hi]

theorem updateChunk_hit (c : Chunk) (h3 : FLOAT) (b : Bufs) (x : Vec) (i : ℕ)
    (hi : inChunk c i = true) :
    updateChunk c h3 b x i = x i + h3 * (1/2 * (b.K1 i + b.K5 i) + 2 * b.K4 i) := by
  simp [updateChunk, hi]

theorem updateX_gap (h3 : FLOAT) (b : Bufs) (i : ℕ) :
    ∀ (lay : List Chunk) (x : Vec), inChunks lay i = false →
      updateX lay h3 b x i = x i := by
  intro lay
  induction lay with
  | nil => intro x _; rfl
  | cons c l ih =>
    intro x hi
    rw [inChunks_cons] at hi
    simp only [Bool.or_eq_false_iff] at hi
    show updateX l h3 b (updateChunk c h3 b x) i = x i
    rw [ih _ hi.2, updateChunk_gap _ _ _ _ _ hi.1]

theorem ChunkDisjB_not_in (c d : Chunk) (i : ℕ) (hcd : ChunkDisjB c d = true)
    (hi : inChunk c i = true) : inChunk d i = false := by
  simp only [ChunkDisjB, Bool.or_eq_true, decide_eq_true_eq] at hcd
  simp only [inChunk, Bool.and_eq_true, decide_eq_true_eq] at hi
  simp only [inChunk, Bool.and_eq_false_iff, decide_eq_false_iff_not, not_le, not_lt]
  rcases hcd with hcd | hcd
  · left; omega
  · right; omega

theorem inChunks_false_of_all (l : List Chunk) (i : ℕ)
    (h : ∀ d ∈ l, inChunk d i = false) : inChunks l i = false := by
  simp only [inChunks, List.any_eq_false]
  intro d hd
  simp [h d hd]

theorem updateX_mem (h3 : FLOAT) (b : Bufs) (i : ℕ) :
    ∀ (lay : List Chunk) (x : Vec), LayDisj lay →
      (∃ c ∈ lay, inChunk c i = true) →
      updateX lay h3 b x i = x i + h3 * (1/2 * (b.K1 i + b.K5 i) + 2 * b.K4 i) := by
  intro lay
  induction lay with
  | nil => intro x _ hex; simp at hex
  | cons c l ih =>
    intro x hd hex
    have hd' := List.pairwise_cons.mp hd
    show updateX l h3 b (updateChunk c h3 b x) i = _
    rcases hex with ⟨e, he, hei⟩
    rcases List.mem_cons.mp he with rfl | hel
    · -- the hit chunk is the head; the tail cannot contain i
      have htl : inChunks l i = false := by
        refine inChunks_false_of_all l i (fun d hdl => ?_)
        exact ChunkDisjB_not_in e d i (hd'.1 d hdl) hei
      rw [updateX_gap _ _ _ _ _ htl, updateChunk_hit _ _ _ _ _ hei]
    · -- the hit chunk is in the tail; the head cannot contain i
      have hci : inChunk c i = false := by
        by_cases hc : inChunk c i = true
        · have := ChunkDisjB_not_in c e i (hd'.1 e hel) hc
          rw [this] at hei; cases hei
        · simpa using hc
      rw [ih _ hd'.2 ⟨e, hel, hei⟩, updateChunk_gap _ _ _ _ _ hci]

theorem le_foldl_max : ∀ (l : List FLOAT) (a : FLOAT), a ≤ l.foldl max a := by
  intro l
  induction l with
  | nil => intro a; simp
  | cons e l ih =>
    intro a
    calc a ≤ max a e := le_max_left a e
    _ ≤ l.foldl max (max a e) := ih (max a e)

theorem mem_le_foldl_max : ∀ (l : List FLOAT) (a e : FLOAT), e ∈ l → e ≤ l.foldl max a := by
  intro l
  induction l with
  | nil => intro a e he; simp at he
  | cons e' l ih =>
    intro a e he
    rcases List.mem_cons.mp he with rfl | hel
    · calc e ≤ max a e := le_max_right a e
      _ ≤ l.foldl max (max a e) := le_foldl_max l (max a e)
    · exact ih (max a e') e hel

theorem foldl_max_le : ∀ (l : List FLOAT) (a c : FLOAT), a ≤ c → (∀ e ∈ l, e ≤ c) →
    l.foldl max a ≤ c := by
  intro l
  induction l with
  | nil => intro a c ha _; simpa using ha
  | cons e l ih =>
    intro a c ha he
    refine ih (max a e) c (max_le ha (he e (List.mem_cons_self e l))) ?_
    intro e' he'
    exact he e' (List.mem_cons_of_mem e he')

theorem foldl_max_cases : ∀ (l : List FLOAT) (a : FLOAT),
    l.foldl max a = a ∨ l.foldl max a ∈ l := by
  intro l
  induction l with
  | nil => intro a; left; rfl
  | cons e l ih =>
    intro a
    rcases ih (max a e) with h | h
    · rcases max_cases a e with ⟨hm, _⟩ | ⟨hm, _⟩
      · left; show l.foldl max (max a e) = a; rw [h, hm]
      · right; show l.foldl max (max a e) ∈ e :: l; rw [h, hm]; exact List.mem_cons_self e l
    · right; exact List.mem_cons_of_mem e h

theorem sessAfterSvc_props (p : LoopParams) (s : LState) :
    (sessAfterSvc p s).x = updateX (s.sess.n.getD []) (s.h / 3) (attemptOf p s).1 s.sess.x ∧
    (sessAfterSvc p s).steps = s.sess.steps + 1 ∧
    (sessAfterSvc p s).steps_total = s.sess.steps_total + 1 ∧
    (sessAfterSvc p s).n = s.sess.n := by
  cases hsv : s.sess.svc <;>
    simp [sessAfterSvc, svcSess, sessAfterUpdate, hsv]

theorem attempt_calls_len (p : LoopParams) (s : LState) :
    (attemptOf p s).2.length = 5 := by
  simp [attemptOf, runStages]

theorem iter_nan_floor (p : LoopParams) (ext : ExtIn) (s : LState)
    (hn : (stepCmd p ext s).NAN = true) (hf : (stepCmd p ext s).h_TOO_SMALL = true) :
    iter p ext s = .done (-4)
      { s with
        sess := { s.sess with steps_total := s.sess.steps_total + 1, t := s.t }
        bufs := (attemptOf p s).1
        rhsCalls := s.rhsCalls + (attemptOf p s).2.length
        last_NAN := true } := by
  simp only [iter, hn, hf, if_true]

theorem iter_nan_retry (p : LoopParams) (ext : ExtIn) (s : LState)
    (hn : (stepCmd p ext s).NAN = true) (hf : (stepCmd p ext s).h_TOO_SMALL = false) :
    iter p ext s = .next
      { s with
        sess := { s.sess with steps_total := s.sess.steps_total + 1 }
        bufs := (attemptOf p s).1
        rhsCalls := s.rhsCalls + (attemptOf p s).2.length
        h := s.h / 10
        cmdFIN := false
        last_NAN := true } := by
  simp only [iter, hn, hf, if_true, Bool.false_eq_true, if_false]

theorem iter_reject (p : LoopParams) (ext : ExtIn) (s : LState)
    (hn : (stepCmd p ext s).NAN = false) (hu : (stepCmd p ext s).UPDATE = false) :
    iter p ext s = .next
      { s with
        sess := { s.sess with steps_total := s.sess.steps_total + 1 }
        bufs := (attemptOf p s).1
        rhsCalls := s.rhsCalls + (attemptOf p s).2.length
        h := new_hOf p ext s
        cmdFIN := false } := by
  simp only [iter, hn, hu, Bool.false_eq_true, if_false]

theorem iter_update_finished (p : LoopParams) (ext : ExtIn) (s : LState)
    (hn : (stepCmd p ext s).NAN = false) (hu : (stepCmd p ext s).UPDATE = true)
    (hfin : (stepCmd p ext s).FINISHED = true) :
    iter p ext s = .done 0
      { s with
        sess := { sessAfterSvc p s with t := s.t + s.h }
        bufs := (attemptOf p s).1
        rhsCalls := s.rhsCalls + (attemptOf p s).2.length
        t := s.t + s.h } := by
  simp only [iter, hn, hu, hfin, Bool.false_eq_true, if_false, if_true]

theorem iter_update_break (p : LoopParams) (ext : ExtIn) (s : LState)
    (hn : (stepCmd p ext s).NAN = false) (hu : (stepCmd p ext s).UPDATE = true)
    (hfin : (stepCmd p ext s).FINISHED = false) (hbrk : brkOf p s = true) :
    iter p ext s = .done 1
      { s with
        sess := { sessAfterSvc p s with t := s.t + s.h, h := new_hOf p ext s }
        bufs := (attemptOf p s).1
        rhsCalls := s.rhsCalls + (attemptOf p s).2.length
        t := s.t + s.h } := by
  simp only [iter, hn, hu, hfin, hbrk, Bool.false_eq_true, if_false, if_true]

theorem iter_update_nextfinish (p : LoopParams) (ext : ExtIn) (s : LState)
    (hn : (stepCmd p ext s).NAN = false) (hu : (stepCmd p ext s).UPDATE = true)
    (hfin : (stepCmd p ext s).FINISHED = false) (hbrk : brkOf p s = false)
    (hnf : (stepCmd p ext s).NEXTFINISH = true) :
    iter p ext s = .next
      { s with
        sess := { sessAfterSvc p s with h := new_hOf p ext s }
        bufs := (attemptOf p s).1
        rhsCalls := s.rhsCalls + (attemptOf p s).2.length
        t := s.t + s.h
        h := p.final_time - (s.t + s.h)
        cmdFIN := true
        f_idx := s.f_idx + 1 } := by
  simp only [iter, hn, hu, hfin, hbrk, hnf, Bool.false_eq_true, if_false, if_true]

theorem iter_update_continue (p : LoopParams) (ext : ExtIn) (s : LState)
    (hn : (stepCmd p ext s).NAN = false) (hu : (stepCmd p ext s).UPDATE = true)
    (hfin : (stepCmd p ext s).FINISHED = false) (hbrk : brkOf p s = false)
    (hnf : (stepCmd p ext s).NEXTFINISH = false) :
    iter p ext s = .next
      { s with
        sess := sessAfterSvc p s
        bufs := (attemptOf p s).1
        rhsCalls := s.rhsCalls + (attemptOf p s).2.length
        t := s.t + s.h
        h := new_hOf p ext s
        cmdFIN := false
        f_idx := s.f_idx + 1 } := by
  simp only [iter, hn, hu, hfin, hbrk, hnf, Bool.false_eq_true, if_false, if_true]

theorem runStages_aux_gap (lay : List Chunk) (F : RHS) (t h : FLOAT) (x : Vec)
    (b : Bufs) (i : ℕ) (hi : inChunks lay i = false) :
    (runStages lay F t h x b).1.aux i = b.aux i := by
  simp [runStages, writeChunks, hi]

theorem iter_preserve (p : LoopParams) (ext : ExtIn) (s : LState) (i : ℕ)
    (hi : inChunks (s.sess.n.getD []) i = false) :
    (iter p ext s).state.sess.n = s.sess.n ∧
    (iter p ext s).state.sess.x i = s.sess.x i ∧
    (iter p ext s).state.bufs.aux i = s.bufs.aux i := by
  have haux : (attemptOf p s).1.aux i = s.bufs.aux i :=
    runStages_aux_gap _ _ _ _ _ _ _ hi
  have hx : (sessAfterSvc p s).x i = s.sess.x i := by
    rw [(sessAfterSvc_props p s).1]
    exact updateX_gap _ _ _ _ _ hi
  have hnn : (sessAfterSvc p s).n = s.sess.n := (sessAfterSvc_props p s).2.2.2
  by_cases hn : (stepCmd p ext s).NAN = true
  · by_cases hf : (stepCmd p ext s).h_TOO_SMALL = true
    · rw [iter_nan_floor p ext s hn hf]; exact ⟨rfl, rfl, haux⟩
    · rw [iter_nan_retry p ext s hn (by simpa using hf)]; exact ⟨rfl, rfl, haux⟩
  · replace hn : (stepCmd p ext s).NAN = false := by simpa using hn
    by_cases hu : (stepCmd p ext s).UPDATE = true
    · by_cases hfin : (stepCmd p ext s).FINISHED = true
      · rw [iter_update_finished p ext s hn hu hfin]; exact ⟨hnn, hx, haux⟩
      · replace hfin : (stepCmd p ext s).FINISHED = false := by simpa using hfin
        by_cases hbrk : brkOf p s = true
        · rw [iter_update_break p ext s hn hu hfin hbrk]; exact ⟨hnn, hx, haux⟩
        · replace hbrk : brkOf p s = false := by simpa using hbrk
          by_cases hnf : (stepCmd p ext s).NEXTFINISH = true
          · rw [iter_update_nextfinish p ext s hn hu hfin hbrk hnf]
            exact ⟨hnn, hx, haux⟩
          · rw [iter_update_continue p ext s hn hu hfin hbrk (by simpa using hnf)]
            exact ⟨hnn, hx, haux⟩
    · rw [iter_reject p ext s hn (by simpa using hu)]; exact ⟨rfl, rfl, haux⟩

theorem solveLoop_preserve (p : LoopParams) (exts : ℕ → ExtIn) (i : ℕ) :
    ∀ (fuel k : ℕ) (s : LState), inChunks (s.sess.n.getD []) i = false →
      ∀ r ∈ solveLoop p exts k fuel s,
        r.2.sess.x i = s.sess.x i ∧ r.2.bufs.aux i = s.bufs.aux i := by
  intro fuel
  induction fuel with
  | zero => intro k s _ r hr; simp [solveLoop] at hr
  | succ fuel ih =>
    intro k s hi r hr
    simp only [solveLoop] at hr
    obtain ⟨hn, hx, ha⟩ := iter_preserve p (exts k) s i hi
    cases hit : iter p (exts k) s with
    | next s' =>
      rw [hit] at hr
      have hi' : inChunks (s'.sess.n.getD []) i = false := by
        have : s'.sess.n = s.sess.n := by rw [← hn, hit]; rfl
        rw [this]; exact hi
      have := ih k.succ s' hi' r hr
      rw [hit] at hx ha
      exact ⟨this.1.trans hx, this.2.trans ha⟩
    | done c s' =>
      rw [hit] at hr
      simp only [Option.mem_def, Option.some_inj] at hr
      rw [hit] at hx ha
      rw [← hr]
      exact ⟨hx, ha⟩

theorem preflight_delta_pos (max_n : ℕ) (inited : Bool) (sys : Session)
    (h : preflightCode max_n inited true sys = 0) : 0 < sys.delta := by
  by_contra hd
  push_neg at hd
  simp [preflightCode, hd] at h

theorem updateX_zero (b : Bufs) (i : ℕ) :
    ∀ (lay : List Chunk) (x : Vec), updateX lay 0 b x i = x i := by
  intro lay
  induction lay with
  | nil => intro x; rfl
  | cons c l ih =>
    intro x
    show updateX l 0 b (updateChunk c 0 b x) i = x i
    rw [ih (updateChunk c 0 b x)]
    by_cases hc : inChunk c i = true
    · rw [updateChunk_hit _ _ _ _ _ hc]; ring
    · exact updateChunk_gap _ _ _ _ _ (by simpa using hc)

theorem foldl_max_zero (l : List FLOAT) (hz : ∀ e ∈ l, e = 0) :
    l.foldl max 0 = 0 := by
  refine le_antisymm (foldl_max_le l 0 0 le_rfl ?_) (le_foldl_max l 0)
  intro e he
  exact le_of_eq (hz e he)

theorem chunkScan_spec (n : RK_MEM_DIST) :
    ∀ (cnt i : ℕ),
      ((∀ j, j < cnt → ¬ violAt n (i + j)) →
        chunkScan n.chunk_start n.chunk_size i cnt (chunkEnd n i) =
          .ok (chunkEnd n (i + cnt))) ∧
      ((∃ j, j < cnt ∧ violAt n (i + j)) →
        chunkScan n.chunk_start n.chunk_size i cnt (chunkEnd n i) = .error (-6)) := by
  intro cnt
  induction cnt with
  | zero =>
    intro i
    constructor
    · intro _; simp [chunkScan]
    · rintro ⟨j, hj, _⟩; omega
  | succ cnt ih =>
    intro i
    by_cases hv : violAt n i
    · have herr : chunkScan n.chunk_start n.chunk_size i (cnt + 1) (chunkEnd n i) =
          .error (-6) := by
        rcases hv with h1 | h2
        · simp [chunkScan, h1]
        · by_cases h1 : n.chunk_start i < chunkEnd n i
          · simp [chunkScan, h1]
          · have h3 : n.chunk_start i + n.chunk_size i ≤ n.chunk_start i := by omega
            simp [chunkScan, h1, h3]
      constructor
      · intro hall
        exact absurd hv (by simpa using hall 0 (by omega))
      · intro _; exact herr
    · have h1 : ¬ n.chunk_start i < chunkEnd n i := fun h => hv (Or.inl h)
      have h2 : ¬ n.chunk_start i + n.chunk_size i ≤ n.chunk_start i := by
        intro h
        exact hv (Or.inr (by omega))
      have hstep : chunkScan n.chunk_start n.chunk_size i (cnt + 1) (chunkEnd n i) =
          chunkScan n.chunk_start n.chunk_size (i + 1) cnt (chunkEnd n (i + 1)) := by
        simp only [chunkScan, if_neg h1, if_neg h2]
        rfl
      constructor
      · intro hall
        rw [hstep]
        have hrec := (ih (i + 1)).1 (fun j hj => by
          have := hall (j + 1) (by omega)
          have heq : i + (j + 1) = i + 1 + j := by omega
          rw [heq] at this
          exact this)
        rw [hrec]
        have heq : i + 1 + cnt = i + (cnt + 1) := by omega
        rw [heq]
      · rintro ⟨j, hj, hvj⟩
        rw [hstep]
        cases j with
        | zero =>
          exact absurd (by simpa using hvj) hv
        | succ j =>
          refine (ih (i + 1)).2 ⟨j, by omega, ?_⟩
          have heq : i + 1 + j = i + (j + 1) := by omega
          rw [heq]
          exact hvj

theorem iter_counters (p : LoopParams) (ext : ExtIn) (s : LState) :
    (iter p ext s).state.sess.steps_total = s.sess.steps_total + 1 ∧
    (iter p ext s).state.rhsCalls = s.rhsCalls + 5 := by
  have hst := (sessAfterSvc_props p s).2.2.1
  have hlen := attempt_calls_len p s
  by_cases hn : (stepCmd p ext s).NAN = true
  · by_cases hf : (stepCmd p ext s).h_TOO_SMALL = true
    · rw [iter_nan_floor p ext s hn hf]; exact ⟨rfl, by simp [IterRes.state, hlen]⟩
    · rw [iter_nan_retry p ext s hn (by simpa using hf)]; exact ⟨rfl, by simp [IterRes.state, hlen]⟩
  · replace hn : (stepCmd p ext s).NAN = false := by simpa using hn
    by_cases hu : (stepCmd p ext s).UPDATE = true
    · by_cases hfin : (stepCmd p ext s).FINISHED = true
      · rw [iter_update_finished p ext s hn hu hfin]; exact ⟨hst, by simp [IterRes.state, hlen]⟩
      · replace hfin : (stepCmd p ext s).FINISHED = false := by simpa using hfin
        by_cases hbrk : brkOf p s = true
        · rw [iter_update_break p ext s hn hu hfin hbrk]; exact ⟨hst, by simp [IterRes.state, hlen]⟩
        · replace hbrk : brkOf p s = false := by simpa using hbrk
          by_cases hnf : (stepCmd p ext s).NEXTFINISH = true
          · rw [iter_update_nextfinish p ext s hn hu hfin hbrk hnf]
            exact ⟨hst, by simp [IterRes.state, hlen]⟩
          · rw [iter_update_continue p ext s hn hu hfin hbrk (by simpa using hnf)]
            exact ⟨hst, by simp [IterRes.state, hlen]⟩
    · rw [iter_reject p ext s hn (by simpa using hu)]; exact ⟨rfl, by simp [IterRes.state, hlen]⟩

theorem iter_update_state (p : LoopParams) (ext : ExtIn) (s : LState)
    (hn : (stepCmd p ext s).NAN = false) (hu : (stepCmd p ext s).UPDATE = true) :
    (iter p ext s).state.sess.x = (sessAfterSvc p s).x ∧
    (iter p ext s).state.t = s.t + s.h ∧
    (iter p ext s).state.sess.steps = (sessAfterSvc p s).steps := by
  by_cases hfin : (stepCmd p ext s).FINISHED = true
  · rw [iter_update_finished p ext s hn hu hfin]; exact ⟨rfl, rfl, rfl⟩
  · replace hfin : (stepCmd p ext s).FINISHED = false := by simpa using hfin
    by_cases hbrk : brkOf p s = true
    · rw [iter_update_break p ext s hn hu hfin hbrk]; exact ⟨rfl, rfl, rfl⟩
    · replace hbrk : brkOf p s = false := by simpa using hbrk
      by_cases hnf : (stepCmd p ext s).NEXTFINISH = true
      · rw [iter_update_nextfinish p ext s hn hu hfin hbrk hnf]; exact ⟨rfl, rfl, rfl⟩
      · rw [iter_update_continue p ext s hn hu hfin hbrk (by simpa using hnf)]
        exact ⟨rfl, rfl, rfl⟩

/-! ## Claim theorems -/

/-- C6: `RK_MPI_SA_check_mem` is side-effect free (it is a pure function
of its inputs in this embedding) and returns -3 when the solver is not
initialised; otherwise -7 when the number of chunks is zero or negative;
otherwise -6 when some chunk starts before the end of its predecessor or
has non-positive size; otherwise -5 when the end of the last chunk
exceeds `max_block_size`; and 0 for every layout satisfying all the
placement invariants. -/
theorem C6_check_mem_codes (m : ℤ) (k : Bool) (d : RK_MEM_DIST) :
    ((m = 0 ∨ k = true) → RK_MPI_SA_check_mem m k d = -3) ∧
    (¬ (m = 0 ∨ k = true) → d.n_chunks ≤ 0 → RK_MPI_SA_check_mem m k d = -7) ∧
    (¬ (m = 0 ∨ k = true) → 0 < d.n_chunks →
      (((∃ j, j < d.n_chunks.toNat ∧ violAt d j) → RK_MPI_SA_check_mem m k d = -6) ∧
       ((∀ j, j < d.n_chunks.toNat → ¬ violAt d j) →
         (chunkEnd d d.n_chunks.toNat > m → RK_MPI_SA_check_mem m k d = -5) ∧
         (chunkEnd d d.n_chunks.toNat ≤ m → RK_MPI_SA_check_mem m k d = 0)))) := by
  refine ⟨?_, ?_, ?_⟩
  · intro h
    simp only [RK_MPI_SA_check_mem, if_pos h]
  · intro h hn
    simp only [RK_MPI_SA_check_mem, if_neg h, if_pos hn]
  · intro h hn
    have hn' : ¬ d.n_chunks ≤ 0 := not_le.mpr hn
    have h00 : chunkEnd d 0 = 0 := rfl
    constructor
    · intro hex
      have hsc := (chunkScan_spec d d.n_chunks.toNat 0).2 (by simpa using hex)
      rw [h00] at hsc
      simp only [RK_MPI_SA_check_mem, if_neg h, if_neg hn', hsc]
    · intro hall
      have hsc := (chunkScan_spec d d.n_chunks.toNat 0).1 (fun j hj => by
        simpa using hall j hj)
      rw [h00] at hsc
      simp only [Nat.zero_add] at hsc
      constructor
      · intro hcap
        simp only [RK_MPI_SA_check_mem, if_neg h, if_neg hn', hsc, if_pos hcap]
      · intro hcap
        have hcap' : ¬ chunkEnd d d.n_chunks.toNat > m := not_lt.mpr hcap
        simp only [RK_MPI_SA_check_mem, if_neg h, if_neg hn', hsc, if_neg hcap']

/-- C6 witness: the codes at concrete distributions. -/
theorem C6_check_mem_codes_witness :
    RK_MPI_SA_check_mem 10 true ⟨2, fun i => 3 * i, fun _ => 2, fun _ => 1⟩ = -3 ∧
    RK_MPI_SA_check_mem 10 false ⟨0, fun i => 3 * i, fun _ => 2, fun _ => 1⟩ = -7 ∧
    RK_MPI_SA_check_mem 10 false ⟨2, fun _ => 0, fun _ => 1, fun _ => 1⟩ = -6 ∧
    RK_MPI_SA_check_mem 4 false ⟨2, fun i => 3 * i, fun _ => 2, fun _ => 1⟩ = -5 ∧
    RK_MPI_SA_check_mem 10 false ⟨2, fun i => 3 * i, fun _ => 2, fun _ => 1⟩ = 0 := by
  refine ⟨?_, ?_, ?_, ?_, ?_⟩
  · exact (C6_check_mem_codes 10 true ⟨2, fun i => 3 * i, fun _ => 2, fun _ => 1⟩).1
      (Or.inr rfl)
  · exact (C6_check_mem_codes 10 false ⟨0, fun i => 3 * i, fun _ => 2, fun _ => 1⟩).2.1
      (by simp) (by decide)
  · exact ((C6_check_mem_codes 10 false ⟨2, fun _ => 0, fun _ => 1, fun _ => 1⟩).2.2
      (by simp) (by decide)).1 ⟨1, by decide, by decide⟩
  · exact (((C6_check_mem_codes 4 false ⟨2, fun i => 3 * i, fun _ => 2, fun _ => 1⟩).2.2
      (by simp) (by decide)).2 (by decide)).1 (by decide)
  · exact (((C6_check_mem_codes 10 false ⟨2, fun i => 3 * i, fun _ => 2, fun _ => 1⟩).2.2
      (by simp) (by decide)).2 (by decide)).2 (by decide)

/-- C9 counterexample: `dBad` is a placement-valid distribution whose
error multiplier is -1 ≤ 0 at every chunk, yet `RK_MPI_SA_check_mem`
returns 0 (success), not a failure code. -/
theorem C9_cex : dBad.chunk_eps_mult 0 ≤ 0 ∧ RK_MPI_SA_check_mem 10 false dBad = 0 := by
  constructor
  · decide
  · decide

/-- C9 amended: `RK_MPI_SA_check_mem` checks only the placement
invariants; it never reads `chunk_eps_mult`, so its result is invariant
under any change of the error multipliers (in particular, layouts with
non-positive multipliers validate exactly as their placement deserves,
never with a dedicated failure code). -/
theorem C9_check_mem_ignores_eps_mult (m : ℤ) (k : Bool) (d : RK_MEM_DIST)
    (f : ℕ → FLOAT) :
    RK_MPI_SA_check_mem m k { d with chunk_eps_mult := f } =
      RK_MPI_SA_check_mem m k d := rfl

/-- C10: a rank whose session has a NULL chunk-layout pointer (but a
non-NULL session) is classified by the pre-flight check with the
capacity code -5, not -2; after the error all-reduce that rank returns
-5 while a clean peer rank (whose reduced minimum is negative) returns
-6; neither return path mutates the session. -/
theorem C10_null_layout_code (env : SolveEnv) (extErrMin em2 : ℤ)
    (exts : ℕ → ExtIn) (fuel : ℕ) (ft : FLOAT) (sys sys2 : Session)
    (hn : sys.n = none) (hin : env.inited = true)
    (hx : sys.xNull = false) (hm : sys.metaNull = false) (hdelta : 0 < sys.delta)
    (h2 : preflightCode env.max_n env.inited true sys2 = 0) (hem2 : em2 < 0) :
    preflightCode env.max_n env.inited true sys = -5 ∧
    RK_MPI_SA_solve env extErrMin exts fuel ft sys = some (-5, initLState env sys) ∧
    (initLState env sys).sess = sys ∧
    RK_MPI_SA_solve env em2 exts fuel ft sys2 = some (-6, initLState env sys2) ∧
    (initLState env sys2).sess = sys2 := by
  have hpf : preflightCode env.max_n env.inited true sys = -5 := by
    simp [preflightCode, hn, hin, hx, hm, not_le.mpr hdelta]
  refine ⟨hpf, ?_, rfl, ?_, rfl⟩
  · simp [RK_MPI_SA_solve, hpf]
  · have hmin : min (0 : ℤ) em2 < 0 := lt_of_le_of_lt (min_le_right _ _) hem2
    simp [RK_MPI_SA_solve, h2, hmin]

/-- C10 witness: the concrete null-layout session. -/
theorem C10_null_layout_code_witness :
    preflightCode env1.max_n env1.inited true sysN = -5 ∧
    RK_MPI_SA_solve env1 0 ext0 1 0 sysN = some (-5, initLState env1 sysN) ∧
    (initLState env1 sysN).sess = sysN ∧
    RK_MPI_SA_solve env1 (-5) ext0 1 0 sys1 = some (-6, initLState env1 sys1) ∧
    (initLState env1 sys1).sess = sys1 :=
  C10_null_layout_code env1 0 (-5) ext0 1 0 sysN sys1 rfl rfl rfl rfl
    (by decide) (by decide) (by decide)

/-- C2: a step attempt is accepted (the master sets the RKA_CMD_UPDATE
bit) if and only if `eps < delta` or `|h| < h_min`, where `eps` is the
all-rank maximum of the per-index weighted Merson error magnitudes
(each rank folding `eps_mult[chunk(i)] * |0.2*K1_i - 0.9*K3_i + 0.8*K4_i
- 0.1*K5_i|` into a running maximum), multiplied by `|h/3|` under
DELTA_LOCAL and left unchanged under DELTA_GLOBAL (`epsOf`); with
`h_min = 0` the `|h| < h_min` escape never fires.  The comparison is the
master's (`stepCmd` is the master-assembled command; the other ranks only
receive it). -/
theorem C2_acceptance_rule (p : LoopParams) (ext : ExtIn) (s : LState) :
    ((stepCmd p ext s).UPDATE = true ↔
      (epsOf p ext s < p.delta ∨ |s.h| < p.h_min)) ∧
    (p.h_min = 0 → ((stepCmd p ext s).UPDATE = true ↔ epsOf p ext s < p.delta)) ∧
    (∀ e ∈ chunkErrs (s.sess.n.getD []) (attemptOf p s).1,
      e ≤ epsLocal (s.sess.n.getD []) (attemptOf p s).1) ∧
    (epsLocal (s.sess.n.getD []) (attemptOf p s).1 = 0 ∨
      epsLocal (s.sess.n.getD []) (attemptOf p s).1 ∈
        chunkErrs (s.sess.n.getD []) (attemptOf p s).1) := by
  have hU : (stepCmd p ext s).UPDATE =
      (decide (epsOf p ext s < p.delta) || decide (|s.h| < p.h_min)) := rfl
  refine ⟨?_, ?_, ?_, ?_⟩
  · rw [hU]
    simp
  · intro h0
    rw [hU, h0]
    have : ¬ |s.h| < 0 := not_lt.mpr (abs_nonneg s.h)
    simp [this]
  · intro e he
    simpa [epsLocal] using
      mem_le_foldl_max (chunkErrs (s.sess.n.getD []) (attemptOf p s).1) 0 e he
  · simpa [epsLocal] using
      foldl_max_cases (chunkErrs (s.sess.n.getD []) (attemptOf p s).1) 0

/-- C2 witness: with `h_min = 0` at the concrete fixture the acceptance
is exactly the tolerance comparison. -/
theorem C2_acceptance_rule_witness :
    (stepCmd pW (ext0 0) sW).UPDATE = true ↔ epsOf pW (ext0 0) sW < pW.delta :=
  (C2_acceptance_rule pW (ext0 0) sW).2.1 rfl

/-- C4: every attempt computes the proposed next step
`h_new = 0.8 * powF(delta/eps, 0.2) * h` when the globally reduced,
delta_mode-normalised error is strictly positive and `h_new = 2*h` when
it is zero; a rejected attempt without NaN, and an accepted attempt that
neither finishes, breaks, nor arms NEXT_FINISH, continue with `h = h_new`. -/
theorem C4_new_step (p : LoopParams) (ext : ExtIn) (s : LState)
    (hn : (stepCmd p ext s).NAN = false) :
    (new_hOf p ext s =
      (if 0 < epsOf p ext s then p.powF (p.delta / epsOf p ext s) (1/5) * (4/5)
       else 2) * s.h) ∧
    ((stepCmd p ext s).UPDATE = false →
      (iter p ext s).retCode = none ∧ (iter p ext s).state.h = new_hOf p ext s) ∧
    ((stepCmd p ext s).UPDATE = true → (stepCmd p ext s).FINISHED = false →
      brkOf p s = false → (stepCmd p ext s).NEXTFINISH = false →
      (iter p ext s).retCode = none ∧ (iter p ext s).state.h = new_hOf p ext s) := by
  refine ⟨rfl, ?_, ?_⟩
  · intro hu
    rw [iter_reject p ext s hn hu]
    exact ⟨rfl, rfl⟩
  · intro hu hfin hbrk hnf
    rw [iter_update_continue p ext s hn hu hfin hbrk hnf]
    exact ⟨rfl, rfl⟩

/-- C4 witness: the doubling branch at the concrete fixture (`eps = 0`
with the zero right hand side). -/
theorem C4_new_step_witness :
    new_hOf pW (ext0 0) sW =
      (if 0 < epsOf pW (ext0 0) sW then
        pW.powF (pW.delta / epsOf pW (ext0 0) sW) (1/5) * (4/5)
       else 2) * sW.h :=
  (C4_new_step pW (ext0 0) sW (by decide)).1

/-- C1: in every attempt `steps_total` is incremented by exactly one;
if the master issues UPDATE (and no NaN), then for every index inside a
chunk the state is updated by `x_i += (h/3)*(0.5*(K1_i + K5_i) + 2*K4_i)`,
the time advances by exactly the `h` used for the attempt, and `steps`
is incremented by one; if the attempt is rejected without NaN, `x`, `t`
and `steps` are unchanged, the loop continues, and the next attempt uses
`h = h_new`. -/
theorem C1_step_attempt_effect (p : LoopParams) (ext : ExtIn) (s : LState)
    (hd : LayDisj (s.sess.n.getD [])) :
    (iter p ext s).state.sess.steps_total = s.sess.steps_total + 1 ∧
    ((stepCmd p ext s).NAN = false → (stepCmd p ext s).UPDATE = true →
      (∀ c ∈ s.sess.n.getD [], ∀ i, inChunk c i = true →
        (iter p ext s).state.sess.x i =
          s.sess.x i + s.h / 3 *
            (1/2 * ((attemptOf p s).1.K1 i + (attemptOf p s).1.K5 i) +
              2 * (attemptOf p s).1.K4 i)) ∧
      (iter p ext s).state.t = s.t + s.h ∧
      (iter p ext s).state.sess.steps = s.sess.steps + 1) ∧
    ((stepCmd p ext s).NAN = false → (stepCmd p ext s).UPDATE = false →
      (iter p ext s).state.sess.x = s.sess.x ∧
      (iter p ext s).state.t = s.t ∧
      (iter p ext s).state.sess.steps = s.sess.steps ∧
      (iter p ext s).retCode = none ∧
      (iter p ext s).state.h = new_hOf p ext s) := by
  refine ⟨(iter_counters p ext s).1, ?_, ?_⟩
  · intro hn hu
    obtain ⟨hx, ht, hsteps⟩ := iter_update_state p ext s hn hu
    refine ⟨?_, ht, ?_⟩
    · intro c hc i hi
      rw [hx, (sessAfterSvc_props p s).1]
      exact updateX_mem _ _ _ _ _ hd ⟨c, hc, hi⟩
    · rw [hsteps, (sessAfterSvc_props p s).2.1]
  · intro hn hu
    rw [iter_reject p ext s hn hu]
    exact ⟨rfl, rfl, rfl, rfl, rfl⟩

/-- C1 witness: the counter increment at the concrete fixture. -/
theorem C1_step_attempt_effect_witness :
    (iter pW (ext0 0) sW).state.sess.steps_total = sW.sess.steps_total + 1 :=
  (C1_step_attempt_effect pW (ext0 0) sW (by simp [LayDisj, lay1, sW, sys1])).1

/-- C7: with NaN handling enabled, an attempt on which some rank reported
a non-finite error estimate is treated as rejected: `x`, `t` and `steps`
are unchanged and `steps_total` still counts the attempt; when the
master's relative-step test does not fire the loop retries with
`h = h/10`; when the master sees `|h| / |t_final - t| < 10^-11` (the
source divides without absolute values, so the sign condition of the
quotient is part of the statement) the call returns NanBreak (-4) with
the session's `t` equal to the time of the last accepted step. -/
theorem C7_nan_handling (p : LoopParams) (ext : ExtIn) (s : LState)
    (hN : p.handleNAN = true) (hA : ext.nanAny = true) :
    (stepCmd p ext s).NAN = true ∧
    (iter p ext s).state.sess.x = s.sess.x ∧
    (iter p ext s).state.t = s.t ∧
    (iter p ext s).state.sess.steps = s.sess.steps ∧
    (iter p ext s).state.sess.steps_total = s.sess.steps_total + 1 ∧
    (¬ (s.h / (p.final_time - s.t) < 1 / 100000000000) →
      (iter p ext s).retCode = none ∧ (iter p ext s).state.h = s.h / 10) ∧
    (0 ≤ s.h / (p.final_time - s.t) →
      |s.h| / |p.final_time - s.t| < 1 / 100000000000 →
      (iter p ext s).retCode = some (-4) ∧ (iter p ext s).state.sess.t = s.t) := by
  have hn : (stepCmd p ext s).NAN = true := by
    simp [stepCmd, hN, hA]
  have habs : s.h / (p.final_time - s.t) = |s.h| / |p.final_time - s.t| ∨
      s.h / (p.final_time - s.t) < 0 := by
    rcases le_or_lt 0 (s.h / (p.final_time - s.t)) with hge | hlt
    · left; rw [← abs_div]; exact (abs_of_nonneg hge).symm
    · right; exact hlt
  refine ⟨hn, ?_, ?_, ?_, ?_, ?_, ?_⟩
  · by_cases hf : (stepCmd p ext s).h_TOO_SMALL = true
    · rw [iter_nan_floor p ext s hn hf]; rfl
    · rw [iter_nan_retry p ext s hn (by simpa using hf)]; rfl
  · by_cases hf : (stepCmd p ext s).h_TOO_SMALL = true
    · rw [iter_nan_floor p ext s hn hf]; rfl
    · rw [iter_nan_retry p ext s hn (by simpa using hf)]; rfl
  · by_cases hf : (stepCmd p ext s).h_TOO_SMALL = true
    · rw [iter_nan_floor p ext s hn hf]; rfl
    · rw [iter_nan_retry p ext s hn (by simpa using hf)]; rfl
  · by_cases hf : (stepCmd p ext s).h_TOO_SMALL = true
    · rw [iter_nan_floor p ext s hn hf]; rfl
    · rw [iter_nan_retry p ext s hn (by simpa using hf)]; rfl
  · intro hnf
    have hts : (stepCmd p ext s).h_TOO_SMALL = ((p.handleNAN && ext.nanAny) &&
        decide (s.h / (p.final_time - s.t) < 1 / 100000000000)) := rfl
    have hf : (stepCmd p ext s).h_TOO_SMALL = false := by
      rw [hts, decide_eq_false hnf, Bool.and_false]
    rw [iter_nan_retry p ext s hn hf]
    exact ⟨rfl, rfl⟩
  · intro hsgn hflr
    have hlt : s.h / (p.final_time - s.t) < 1 / 100000000000 := by
      rw [← abs_div] at hflr
      rw [abs_of_nonneg hsgn] at hflr
      exact hflr
    have hts : (stepCmd p ext s).h_TOO_SMALL = ((p.handleNAN && ext.nanAny) &&
        decide (s.h / (p.final_time - s.t) < 1 / 100000000000)) := rfl
    have hf : (stepCmd p ext s).h_TOO_SMALL = true := by
      rw [hts, hN, hA, decide_eq_true hlt]
      rfl
    rw [iter_nan_floor p ext s hn hf]
    exact ⟨rfl, rfl⟩

/-- C7 witness: the retry clause at the concrete NaN fixture (`h = 1`,
quotient 1, far from the floor). -/
theorem C7_nan_handling_witness :
    (iter pN extN sW).retCode = none ∧ (iter pN extN sW).state.h = sW.h / 10 :=
  (C7_nan_handling pN extN sW rfl rfl).2.2.2.2.2.1 (by norm_num [sW, pN, pW, sys1])

/-- C5: throughout any call to `RK_MPI_SA_solve`, indices outside the
union of chunks are never written by the solver: the staging kernels
leave the gap entries of `aux` untouched and the accepted-step update
writes `x` only at chunk indices, so every gap entry of the state buffer
(and of the staging scratch) is the same after the call returns as
before it.  The right hand side obeys the chunk write discipline by the
model of `callRHS` (its contract). -/
theorem C5_gap_frame (env : SolveEnv) (extErrMin : ℤ) (exts : ℕ → ExtIn)
    (fuel : ℕ) (ft : FLOAT) (sys : Session) (i : ℕ)
    (hi : inChunks (sys.n.getD []) i = false) :
    ∀ r ∈ RK_MPI_SA_solve env extErrMin exts fuel ft sys,
      r.2.sess.x i = sys.x i ∧ r.2.bufs.aux i = env.bufs0.aux i := by
  intro r hr
  simp only [RK_MPI_SA_solve] at hr
  by_cases he : preflightCode env.max_n env.inited true sys ≠ 0
  · rw [if_pos he] at hr
    simp only [Option.mem_def, Option.some_inj] at hr
    rw [← hr]
    exact ⟨rfl, rfl⟩
  · rw [if_neg he] at hr
    by_cases hm : min (preflightCode env.max_n env.inited true sys) extErrMin < 0
    · rw [if_pos hm] at hr
      simp only [Option.mem_def, Option.some_inj] at hr
      rw [← hr]
      exact ⟨rfl, rfl⟩
    · rw [if_neg hm] at hr
      exact solveLoop_preserve _ exts i fuel 0 _ hi r hr

/-- C5 witness: the gap index 1 of the concrete one-chunk session — the
returned state's entry there is the initial one. -/
theorem C5_gap_frame_witness :
    (RK_MPI_SA_solve env1 0 ext0 1 0 sys1).map (fun r => r.2.sess.x 1) =
      (RK_MPI_SA_solve env1 0 ext0 1 0 sys1).map (fun _ => sys1.x 1) := by
  have h := C5_gap_frame env1 0 ext0 1 0 sys1 1 (by decide)
  cases ho : RK_MPI_SA_solve env1 0 ext0 1 0 sys1 with
  | none => rfl
  | some r =>
    have hm : r ∈ RK_MPI_SA_solve env1 0 ext0 1 0 sys1 := by
      simp [Option.mem_def, ho]
    have hx := (h r hm).1
    simp [hx]

/-- C3 counterexample: index 1 is a gap of the fixture layout, and the
staged argument of the second right-hand-side call (the K2 stage) there
is the stale `aux` content (42), not the state entry `x 1`: a staged
argument differs from `x` at an index outside every chunk, contradicting
the claim that each staged argument differs from `x` only at chunk
indices. -/
theorem C3_cex :
    inChunks (sW.sess.n.getD []) 1 = false ∧
    ((attemptOf pW sW).2.getD 1 defCall).2 1 ≠ sW.sess.x 1 := by
  constructor
  · decide
  · decide

/-- C3 amended: within one attempt the right-hand-side is called exactly
five times, in the strict order K1, K2, K3, K4, K5, at times `t`,
`t + h/3`, `t + h/3`, `t + h/2`, `t + h`; the first call receives `x`
itself; each staged argument carries the Merson staging formula at every
chunk index, while at indices outside the chunks it carries the previous
content of the `aux` scratch buffer (not `x`); K2 is produced into K3's
buffer and after the attempt that buffer holds K3 (K2 is not kept). -/
theorem C3_staged_calls (p : LoopParams) (s : LState) :
    (attemptOf p s).2.length = 5 ∧
    (attemptOf p s).2.map Prod.fst =
      [s.t, s.t + s.h / 3, s.t + s.h / 3, s.t + s.h / 2, s.t + s.h] ∧
    ((attemptOf p s).2.getD 0 defCall).2 = s.sess.x ∧
    (∀ i, inChunks (s.sess.n.getD []) i = true →
      (attemptOf p s).1.K1 i = p.metaF s.f_idx s.t s.sess.x i ∧
      ((attemptOf p s).2.getD 1 defCall).2 i =
        s.sess.x i + s.h / 3 * (attemptOf p s).1.K1 i ∧
      ((attemptOf p s).2.getD 2 defCall).2 i =
        s.sess.x i + s.h / 6 *
          ((attemptOf p s).1.K1 i +
            p.metaF s.f_idx (s.t + s.h / 3) ((attemptOf p s).2.getD 1 defCall).2 i) ∧
      (attemptOf p s).1.K3 i =
        p.metaF s.f_idx (s.t + s.h / 3) ((attemptOf p s).2.getD 2 defCall).2 i ∧
      ((attemptOf p s).2.getD 3 defCall).2 i =
        s.sess.x i + s.h / 8 *
          ((attemptOf p s).1.K1 i + 3 * (attemptOf p s).1.K3 i) ∧
      (attemptOf p s).1.K4 i =
        p.metaF s.f_idx (s.t + s.h / 2) ((attemptOf p s).2.getD 3 defCall).2 i ∧
      ((attemptOf p s).2.getD 4 defCall).2 i =
        s.sess.x i +
          (1/2 * (attemptOf p s).1.K1 i - 3/2 * (attemptOf p s).1.K3 i +
            2 * (attemptOf p s).1.K4 i) * s.h ∧
      (attemptOf p s).1.K5 i =
        p.metaF s.f_idx (s.t + s.h) ((attemptOf p s).2.getD 4 defCall).2 i) ∧
    (∀ i, inChunks (s.sess.n.getD []) i = false →
      ((attemptOf p s).2.getD 1 defCall).2 i = s.bufs.aux i ∧
      ((attemptOf p s).2.getD 2 defCall).2 i = s.bufs.aux i ∧
      ((attemptOf p s).2.getD 3 defCall).2 i = s.bufs.aux i ∧
      ((attemptOf p s).2.getD 4 defCall).2 i = s.bufs.aux i) := by
  refine ⟨attempt_calls_len p s, rfl, rfl, ?_, ?_⟩
  · intro i hi
    refine ⟨?_, ?_, ?_, ?_, ?_, ?_, ?_, ?_⟩ <;>
      simp [attemptOf, runStages, callRHS, writeChunks, hi] <;> ring
  · intro i hi
    refine ⟨?_, ?_, ?_, ?_⟩ <;>
      simp [attemptOf, runStages, callRHS, writeChunks, hi]

/-- C3 witness: the call count at the concrete fixture, with the chunk
formulas instantiated at index 0 (a chunk index). -/
theorem C3_staged_calls_witness :
    (attemptOf pW sW).1.K1 0 = pW.metaF sW.f_idx sW.t sW.sess.x 0 :=
  ((C3_staged_calls pW sW).2.2.2.1 0 (by decide)).1

theorem runStages_h0_K (lay : List Chunk) (F : RHS) (t : FLOAT) (x : Vec) (b : Bufs)
    (hF : ∀ t' a, (∀ j, inChunks lay j = true → a j = x j) →
          ∀ j, inChunks lay j = true → F t' a j = F t' x j) :
    ∀ i, inChunks lay i = true →
      (runStages lay F t 0 x b).1.K1 i = F t x i ∧
      (runStages lay F t 0 x b).1.K3 i = F t x i ∧
      (runStages lay F t 0 x b).1.K4 i = F t x i ∧
      (runStages lay F t 0 x b).1.K5 i = F t x i := by
  intro i hi
  refine ⟨?_, ?_, ?_, ?_⟩ <;>
    simp only [runStages, callRHS, writeChunks, hi, if_true, zero_div, mul_zero,
      zero_mul, add_zero, zero_add, one_div] <;>
    exact hF _ _ (fun j hj => by simp [writeChunks, hj]) i hi

theorem epsLocal_h0 (lay : List Chunk) (F : RHS) (t : FLOAT) (x : Vec) (b : Bufs)
    (hF : ∀ t' a, (∀ j, inChunks lay j = true → a j = x j) →
          ∀ j, inChunks lay j = true → F t' a j = F t' x j) :
    epsLocal lay (runStages lay F t 0 x b).1 = 0 := by
  refine foldl_max_zero _ (fun e he => ?_)
  simp only [chunkErrs, List.mem_flatMap, List.mem_map, List.mem_range] at he
  obtain ⟨c, hc, j, hj, rfl⟩ := he
  have hchunk : inChunk c (c.start + j) = true := by
    simp only [inChunk, Bool.and_eq_true, decide_eq_true_eq]
    omega
  have hin : inChunks lay (c.start + j) = true := by
    simp only [inChunks, List.any_eq_true]
    exact ⟨c, hc, hchunk⟩
  obtain ⟨h1, h3, h4, h5⟩ := runStages_h0_K lay F t x b hF (c.start + j) hin
  rw [mersonErr, h1, h3, h4, h5]
  have hz : 1/5 * F t x (c.start + j) - 9/10 * F t x (c.start + j) +
      4/5 * F t x (c.start + j) - 1/10 * F t x (c.start + j) = 0 := by ring
  rw [hz, abs_zero, mul_zero]

theorem solve_degenerate (env : SolveEnv) (extErrMin : ℤ) (exts : ℕ → ExtIn)
    (fuel : ℕ) (sys : Session) (lay : List Chunk)
    (hlay : sys.n = some lay)
    (hpre : preflightCode env.max_n env.inited true sys = 0)
    (hext : 0 ≤ extErrMin)
    (hfuel : 1 ≤ fuel)
    (hex : exts 0 = ⟨0, false⟩)
    (hF : ∀ t' a, (∀ j, inChunks lay j = true → a j = sys.x j) →
          ∀ j, inChunks lay j = true → env.metaF 0 t' a j = env.metaF 0 t' sys.x j) :
    ∃ ls, RK_MPI_SA_solve env extErrMin exts fuel sys.t sys = some (0, ls) ∧
      ls.sess.t = sys.t ∧ (∀ j, ls.sess.x j = sys.x j) ∧
      ls.sess.steps = sys.steps + 1 ∧ ls.sess.steps_total = sys.steps_total + 1 ∧
      ls.rhsCalls = 5 := by
  obtain ⟨fuel', rfl⟩ : ∃ f', fuel = f' + 1 := ⟨fuel - 1, by omega⟩
  -- entry: the pre-flight passes, h is trimmed to 0 and FINISHED is armed
  have hA : RK_MPI_SA_solve env extErrMin exts (fuel' + 1) sys.t sys =
      solveLoop (loopParamsOf env sys.t sys) exts 0 (fuel' + 1)
        { initLState env sys with h := 0, cmdFIN := true } := by
    have hc1 : ¬ (preflightCode env.max_n env.inited true sys ≠ 0) := by simp [hpre]
    have hc2 : ¬ (min (preflightCode env.max_n env.inited true sys) extErrMin < 0) := by
      rw [hpre]
      exact not_lt.mpr (le_min le_rfl hext)
    simp only [RK_MPI_SA_solve, if_neg hc1, if_neg hc2]
    simp [sub_self]
  set pP := loopParamsOf env sys.t sys with hpP
  set sI : LState := { initLState env sys with h := 0, cmdFIN := true } with hsI
  have hSt : sI.t = sys.t := rfl
  have hSh : sI.h = 0 := rfl
  have hlay' : sI.sess.n.getD [] = lay := by
    show sys.n.getD [] = lay
    rw [hlay]
    rfl
  have hattempt : attemptOf pP sI = runStages lay (env.metaF 0) sys.t 0 sys.x env.bufs0 := by
    rw [attemptOf, hlay']
    rfl
  -- the unique attempt accepts (eps = 0 < delta) and finishes
  have heps : epsOf pP (exts 0) sI = 0 := by
    rw [epsOf, hlay', hattempt, epsLocal_h0 lay (env.metaF 0) sys.t sys.x env.bufs0 hF,
      hex]
    show deltaNormalize sys.delta_mode (0 / 3) (max 0 0) = 0
    cases sys.delta_mode <;> simp [deltaNormalize]
  have hdelta : 0 < sys.delta := preflight_delta_pos _ _ _ hpre
  have hn : (stepCmd pP (exts 0) sI).NAN = false := by
    have h0 : (stepCmd pP (exts 0) sI).NAN = (pP.handleNAN && (exts 0).nanAny) := rfl
    rw [h0, hex]
    simp
  have hu : (stepCmd pP (exts 0) sI).UPDATE = true := by
    have h0 : (stepCmd pP (exts 0) sI).UPDATE =
        (decide (epsOf pP (exts 0) sI < pP.delta) ||
          decide (|sI.h| < pP.h_min)) := rfl
    rw [h0, heps]
    have hd : (0 : FLOAT) < pP.delta := hdelta
    simp [decide_eq_true hd]
  have hfin : (stepCmd pP (exts 0) sI).FINISHED = true := rfl
  have hiter := iter_update_finished pP (exts 0) sI hn hu hfin
  refine ⟨(iter pP (exts 0) sI).state, ?_, ?_, ?_, ?_, ?_, ?_⟩
  · rw [hA]
    simp only [solveLoop]
    rw [hiter]
    rfl
  · rw [hiter]
    show sI.t + sI.h = sys.t
    rw [hSt, hSh, add_zero]
  · intro j
    rw [hiter]
    show (sessAfterSvc pP sI).x j = sys.x j
    rw [(sessAfterSvc_props pP sI).1, hSh, hlay']
    have h03 : (0 : FLOAT) / 3 = 0 := by norm_num
    rw [h03]
    exact updateX_zero _ _ _ _
  · rw [hiter]
    show (sessAfterSvc pP sI).steps = sys.steps + 1
    rw [(sessAfterSvc_props pP sI).2.1]
    rfl
  · rw [hiter]
    show (sessAfterSvc pP sI).steps_total = sys.steps_total + 1
    rw [(sessAfterSvc_props pP sI).2.2.1]
    rfl
  · rw [hiter]
    show sI.rhsCalls + (attemptOf pP sI).2.length = 5
    rw [attempt_calls_len]
    rfl

/-- C8 counterexample: calling Solve with `t_final` equal to `session.t`
on the valid, initialised fixture session does return 0 (Ok), but it
performs five right-hand-side evaluations and increments both `steps`
and `steps_total` from 0 to 1, contradicting the claim that it returns
immediately with zero evaluations and unchanged counters. -/
theorem C8_cex :
    sys1.t = 0 ∧
    (RK_MPI_SA_solve env1 0 ext0 1 0 sys1).map
      (fun r => (r.1, r.2.sess.steps, r.2.sess.steps_total, r.2.rhsCalls)) =
      some (0, 1, 1, 5) := by
  refine ⟨rfl, ?_⟩
  obtain ⟨ls, h1, _, _, h4, h5, h6⟩ :=
    solve_degenerate env1 0 ext0 1 sys1 lay1 rfl (by decide) (by decide) (by decide)
      rfl (fun _ _ _ _ _ => rfl)
  have h0 : (0 : FLOAT) = sys1.t := rfl
  rw [h0, h1]
  show some ((0 : ℤ), ls.sess.steps, ls.sess.steps_total, ls.rhsCalls) =
    some (0, 1, 1, 5)
  rw [h4, h5, h6]
  rfl

/-- C8 amended: calling Solve with `t_final = session.t` on a valid,
initialised session returns Ok (0), with `session.t` and the state
buffer unchanged — but not immediately: the pre-loop trimming sets
`h = t_final - t = 0` and arms RKA_CMD_FINISHED, after which one
degenerate attempt runs to completion, so the right hand side is
evaluated five times and `steps` and `steps_total` are each incremented
by one.  The hypothesis on the right hand side states that its chunk
outputs depend only on the chunk entries of its argument (the staged
arguments agree with `x` only there; their gap entries are stale
scratch). -/
theorem C8_tfinal_eq_t (env : SolveEnv) (extErrMin : ℤ) (exts : ℕ → ExtIn)
    (fuel : ℕ) (ft : FLOAT) (sys : Session) (lay : List Chunk)
    (hlay : sys.n = some lay)
    (hft : ft = sys.t)
    (hpre : preflightCode env.max_n env.inited true sys = 0)
    (hext : 0 ≤ extErrMin)
    (hfuel : 1 ≤ fuel)
    (hex : exts 0 = ⟨0, false⟩)
    (hF : ∀ t' a, (∀ j, inChunks lay j = true → a j = sys.x j) →
          ∀ j, inChunks lay j = true → env.metaF 0 t' a j = env.metaF 0 t' sys.x j) :
    ∃ ls, RK_MPI_SA_solve env extErrMin exts fuel ft sys = some (0, ls) ∧
      ls.sess.t = sys.t ∧ (∀ j, ls.sess.x j = sys.x j) ∧
      ls.sess.steps = sys.steps + 1 ∧ ls.sess.steps_total = sys.steps_total + 1 ∧
      ls.rhsCalls = 5 := by
  subst hft
  exact solve_degenerate env extErrMin exts fuel sys lay hlay hpre hext hfuel hex hF

/-- C8 witness: the amended statement at the concrete fixture. -/
theorem C8_tfinal_eq_t_witness :
    ∃ ls, RK_MPI_SA_solve env1 0 ext0 1 0 sys1 = some (0, ls) ∧
      ls.sess.t = sys1.t ∧ (∀ j, ls.sess.x j = sys1.x j) ∧
      ls.sess.steps = sys1.steps + 1 ∧ ls.sess.steps_total = sys1.steps_total + 1 ∧
      ls.rhsCalls = 5 :=
  C8_tfinal_eq_t env1 0 ext0 1 0 sys1 lay1 rfl rfl (by decide) (by decide)
    (by decide) rfl (fun _ _ _ _ _ => rfl)

end PorousRK
